import Mathlib

/-!
# Verification of the skanery signal-aggregation layer (`src/app.py`)

This file is a shallow embedding, in Lean, of the signal-aggregation core of
the repository: the `CompanySignals` accumulator and the report-shape builders
`create_consensus_df` and `create_best_of`.

Modelling conventions:
* Python floats are modelled as rationals (`ℚ`); the decimal constants of the
  source (`1.5`, `1.3`, ...) are exact decimals.
* Python `dict`s (which iterate in insertion order) are modelled as
  insertion-ordered association lists; writing to an existing key replaces the
  value in place (`upsert`, `addWeight`).
* Python's stable sorts (`list.sort` and `sorted`) are modelled by the stable
  insertion sort `sortS c`, where `c x y` decides whether `x` may be placed
  before `y`; an element is inserted before the first element it compares
  `c`-true against, so equal keys keep their original relative order. The
  consensus builder's dataframe sort is NOT one of these: it uses the
  library's default non-stable sort, see `create_consensus_df`.
* `round(x, 1)` is modelled as round-half-to-even at one decimal (`round1`).
-/

namespace Skanery

/-- Characters admitted inside a `[X]` flag token by the extraction regex
`\[([A-Z!?]+)\]`: uppercase ASCII letters, `'!'` and `'?'`. -/
def flagChar (c : Char) : Bool := ('A' ≤ c && c ≤ 'Z') || c = '!' || c = '?'

/-- One left-to-right pass implementing `re.findall(r'\[([A-Z!?]+)\]', s)`
(`CompanySignals._parse_flags`). The state is `none` outside a candidate
match and `some run` after having read `'['` followed by the (possibly empty)
run of flag characters `run`.

When a candidate fails (a character that is neither a flag character nor a
closing `']'`, or a `']'` right after `'['`), `findall` restarts one position
after the failed match's start; since none of the skipped run characters can
be `'['`, no match can start before the current character, so failing simply
re-processes the current character in the outside state. -/
def parseGo : Option (List Char) → List Char → List (List Char)
  | _, [] => []
  | none, c :: cs => if c = '[' then parseGo (some []) cs else parseGo none cs
  | some run, c :: cs =>
    if flagChar c then parseGo (some (run ++ [c])) cs
    else if c = ']' then
      if run = [] then parseGo none cs
      else run :: parseGo none cs
    else if c = '[' then parseGo (some []) cs
    else parseGo none cs

/-- A recorded appearance of a company in one scanner model:
the `{'rank', 'score', 'flags', 'flags_list'}` dict stored by
`CompanySignals.add_appearance`. -/
structure Appearance where
  rank : Nat
  score : ℚ
  flags : String
  flags_list : List String
deriving Repr, DecidableEq

/-- The `CompanySignals` accumulator: ticker, the optional market (`rynek`)
and the `model_name -> appearance` dict (insertion ordered). -/
structure CompanySignals where
  ticker : String
  rynek : Option String := none
  appearances : List (String × Appearance) := []
deriving Repr, DecidableEq

/-- `CompanySignals.__init__`. -/
def CompanySignals.init (ticker : String) : CompanySignals :=
  { ticker := ticker, rynek := none, appearances := [] }

/-- `CompanySignals._parse_flags`: extract the bracketed flag tokens. -/
def CompanySignals.parse_flags (flags_str : String) : List String :=
  (parseGo none flags_str.data).map String.mk

/-- Python dict assignment `d[k] = v`: replace in place if the key is present
(keeping its position in iteration order), else append at the end. -/
def upsert (k : String) (v : Appearance) : List (String × Appearance) → List (String × Appearance)
  | [] => [(k, v)]
  | (k', v') :: rest => if k' = k then (k, v) :: rest else (k', v') :: upsert k v rest

/-- Python truthiness test `not x` for an optional string: `None` and the
empty string are falsy. -/
def strFalsy : Option String → Bool
  | none => true
  | some s => s = ""

/-- `CompanySignals.add_appearance`: record/overwrite the evidence for
`model_name`, and set `rynek` only when the supplied value is truthy and the
current one is falsy. -/
def CompanySignals.add_appearance (self : CompanySignals) (model_name : String)
    (rank : Nat) (score : ℚ) (flags : String) (rynek : Option String := none) :
    CompanySignals :=
  { self with
    appearances :=
      upsert model_name ⟨rank, score, flags, CompanySignals.parse_flags flags⟩ self.appearances
    rynek := if !strFalsy rynek && strFalsy self.rynek then rynek else self.rynek }

/-- `CompanySignals.coverage`: in how many models the company appears. -/
def CompanySignals.coverage (s : CompanySignals) : Nat := s.appearances.length

/-- `RANK_POINTS` applied to one appearance's rank
(TOP5 = 5, TOP10 = 3, TOP20 = 1, other = 0). -/
def rankPoints (rank : Nat) : Nat :=
  if rank ≤ 5 then 5 else if rank ≤ 10 then 3 else if rank ≤ 20 then 1 else 0

/-- `CompanySignals.elite_score`: sum of rank points over all appearances. -/
def CompanySignals.elite_score (s : CompanySignals) : Nat :=
  (s.appearances.map (fun p => rankPoints p.2.rank)).sum

/-- `CompanySignals.top5_count`. -/
def CompanySignals.top5_count (s : CompanySignals) : Nat :=
  s.appearances.countP (fun p => p.2.rank ≤ 5)

/-- `CompanySignals.top10_count`. -/
def CompanySignals.top10_count (s : CompanySignals) : Nat :=
  s.appearances.countP (fun p => p.2.rank ≤ 10)

/-- `CompanySignals.all_flags`: concatenation of all models' flag lists, in
dict iteration order. -/
def CompanySignals.all_flags (s : CompanySignals) : List String :=
  s.appearances.flatMap (fun p => p.2.flags_list)

/-- `CompanySignals.unique_flags`: the set of flags. Every consumer in the
source immediately applies `sorted(...)` to this set, so it is modelled as
the duplicate-free list of flags (order irrelevant to all uses). -/
def CompanySignals.unique_flags (s : CompanySignals) : List String :=
  s.all_flags.dedup

/-- Membership test `f in ['!', '?']`. -/
def isWarningFlag (f : String) : Bool := f == "!" || f == "?"

/-- `CompanySignals.warning_count`. -/
def CompanySignals.warning_count (s : CompanySignals) : Nat :=
  s.all_flags.countP isWarningFlag

/-- `CompanySignals.positive_flag_count`. -/
def CompanySignals.positive_flag_count (s : CompanySignals) : Nat :=
  s.all_flags.countP (fun f => !isWarningFlag f)

/-- `CompanySignals.get_flag_density`: positive flags per covered model,
`0` for zero coverage. -/
def CompanySignals.get_flag_density (s : CompanySignals) : ℚ :=
  if s.coverage = 0 then 0 else (s.positive_flag_count : ℚ) / (s.coverage : ℚ)

/-- `FLAG_TO_CATEGORY`: the inverse of `FLAG_CATEGORIES`; every key is a
single-character flag string. -/
def flagToCategory (f : String) : Option String :=
  if f = "Q" then some "quality"
  else if f = "G" then some "growth"
  else if f = "R" then some "growth"
  else if f = "V" then some "value"
  else if f = "D" then some "value"
  else if f = "M" then some "momentum"
  else if f = "A" then some "momentum"
  else if f = "S" then some "safety"
  else if f = "B" then some "safety"
  else if f = "L" then some "safety"
  else if f = "C" then some "cash"
  else if f = "T" then some "turnaround"
  else if f = "!" then some "warning"
  else if f = "?" then some "warning"
  else none

/-- `CATEGORY_WEIGHTS.get(cat, 1.0)`. -/
def categoryWeight (cat : String) : ℚ :=
  if cat = "quality" then 1.5
  else if cat = "growth" then 1.3
  else if cat = "value" then 1.2
  else if cat = "momentum" then 1.1
  else if cat = "safety" then 1.4
  else if cat = "cash" then 1.3
  else if cat = "turnaround" then 1.0
  else if cat = "warning" then -2.0
  else 1.0

/-- `defaultdict(float)` update `strength[cat] += w` (insertion ordered). -/
def addWeight (cat : String) (w : ℚ) : List (String × ℚ) → List (String × ℚ)
  | [] => [(cat, w)]
  | (c, v) :: rest => if c = cat then (c, v + w) :: rest else (c, v) :: addWeight cat w rest

/-- `CompanySignals.get_category_strength`: for every flag occurrence mapped
to a category, add that category's weight. -/
def CompanySignals.get_category_strength (s : CompanySignals) : List (String × ℚ) :=
  s.all_flags.foldl (fun strength flag =>
    match flagToCategory flag with
    | some cat => addWeight cat (categoryWeight cat) strength
    | none => strength) []

/-- Python `max(items, key=lambda x: x[1])` as a left fold: the current best
is replaced only by a strictly larger value, so the first maximum (in
iteration order) wins. -/
def maxEntry : (String × ℚ) → List (String × ℚ) → (String × ℚ)
  | best, [] => best
  | best, x :: rest => maxEntry (if best.2 < x.2 then x else best) rest

/-- `CompanySignals.get_dominant_category`: strongest category after
dropping `warning`, with sentinel `("unknown", 0)` when nothing remains. -/
def CompanySignals.get_dominant_category (s : CompanySignals) : String × ℚ :=
  let strength := s.get_category_strength
  if strength.isEmpty then ("unknown", 0)
  else
    match strength.filter (fun p => p.1 ≠ "warning") with
    | [] => ("unknown", 0)
    | x :: rest => maxEntry x rest

/-- `CompanySignals.calculate_signal_strength`. -/
def CompanySignals.calculate_signal_strength (s : CompanySignals) : ℚ :=
  let base : ℚ := (s.elite_score : ℚ)
  let flag_bonus := s.get_flag_density * 3
  let coverage_bonus := min (s.coverage : ℚ) 4 * 1.5
  let warning_penalty := (s.warning_count : ℚ) * 2
  let consistency_bonus := min s.get_dominant_category.2 5 * 0.5
  base + flag_bonus + coverage_bonus - warning_penalty + consistency_bonus

/-- Stable insertion: place `x` before the first element `y` with
`c x y = true`. With `c` the "may precede" relation of a stable sort, equal
keys keep their original relative order because the inserted element is the
originally earliest one. -/
def insertS (c : α → α → Bool) (x : α) : List α → List α
  | [] => [x]
  | y :: rest => if c x y then x :: y :: rest else y :: insertS c x rest

/-- Stable insertion sort; models Python's stable `sorted`/`list.sort`
(used by the thesis top-2 categories, the models summary and the best-of
ranking). -/
def sortS (c : α → α → Bool) : List α → List α
  | [] => []
  | x :: rest => insertS c x (sortS c rest)

/-- Stable sort, descending on a rational key (sort key `-x` in the source). -/
def sortByDesc (key : α → ℚ) (l : List α) : List α :=
  sortS (fun a b => key b ≤ key a) l

/-- Code-point lexicographic ordering of character lists (Python string
comparison). -/
def charListLe : List Char → List Char → Bool
  | [], _ => true
  | _ :: _, [] => false
  | a :: as, b :: bs => if a < b then true else if b < a then false else charListLe as bs

/-- Python `sorted` on strings: stable, ascending, code-point lexicographic. -/
def sortedStrings (l : List String) : List String :=
  sortS (fun a b => charListLe a.data b.data) l

/-- `''.join(f'[{f}]' for f in l)`. -/
def bracketJoin : List String → String
  | [] => ""
  | f :: rest => "[" ++ f ++ "]" ++ bracketJoin rest

/-- The `category_names` table of `generate_thesis`. -/
def categoryName (cat : String) : Option String :=
  if cat = "quality" then some "QUALITY"
  else if cat = "growth" then some "GROWTH"
  else if cat = "value" then some "VALUE"
  else if cat = "momentum" then some "MOMENTUM"
  else if cat = "safety" then some "DEFENSIVE"
  else if cat = "cash" then some "CASH KING"
  else if cat = "turnaround" then some "TURNAROUND"
  else if cat = "unknown" then some "MIXED"
  else none

/-- The `flag_desc` table of `generate_thesis`. -/
def flagDesc (cat : String) : Option String :=
  if cat = "quality" then some "wysoka jakość"
  else if cat = "growth" then some "wzrost"
  else if cat = "value" then some "niska wycena"
  else if cat = "momentum" then some "momentum"
  else if cat = "safety" then some "bezpieczeństwo"
  else if cat = "cash" then some "cash flow"
  else if cat = "turnaround" then some "sygnały odbicia"
  else none

/-- The conviction tier of `generate_thesis`:
`≥ 15 → "Strong"`, `≥ 10 → "Medium"`, else `"Weak"`. -/
def CompanySignals.conviction (s : CompanySignals) : String :=
  if 15 ≤ s.calculate_signal_strength then "Strong"
  else if 10 ≤ s.calculate_signal_strength then "Medium"
  else "Weak"

/-- The `details` list of `generate_thesis`: TOP5 notes, descriptions of the
top-2 non-warning categories (stable descending sort by strength), then the
warning note. -/
def CompanySignals.thesisDetails (s : CompanySignals) : List String :=
  let top5Details : List String :=
    if 2 ≤ s.top5_count then ["TOP5 w " ++ toString s.top5_count ++ " modelach"]
    else if s.top5_count = 1 then
      ["TOP5: " ++
        (((s.appearances.filter (fun p => p.2.rank ≤ 5)).map Prod.fst).headD "").take 15]
    else []
  let cat_strength := s.get_category_strength.filter (fun p => p.1 ≠ "warning")
  let sorted_cats := (sortByDesc (fun p => p.2) cat_strength).take 2
  let catDetails := sorted_cats.filterMap (fun p => flagDesc p.1)
  let warnDetails :=
    if 0 < s.warning_count then ["⚠️ " ++ toString s.warning_count ++ "x warning"] else []
  top5Details ++ catDetails ++ warnDetails

/-- `CompanySignals.generate_thesis`. -/
def CompanySignals.generate_thesis (s : CompanySignals) : String :=
  if s.coverage = 0 then "Brak danych"
  else
    (categoryName s.get_dominant_category.1).getD "MIXED" ++ " (" ++ s.conviction ++ ")" ++
      (if s.thesisDetails.isEmpty then ""
       else ": " ++ String.intercalate ", " s.thesisDetails)

/-- `CompanySignals.get_models_summary`: appearances sorted (stably) by rank,
rendered `shortname:#rank` and joined with `" | "`. -/
def CompanySignals.get_models_summary (s : CompanySignals) : String :=
  if s.appearances.isEmpty then ""
  else
    String.intercalate " | "
      ((sortS (fun a b => a.2.rank ≤ b.2.rank) s.appearances).map
        (fun p => p.1.take 12 ++ ":#" ++ toString p.2.rank))

/-- Round half to even to an integer (Python `round` on exact decimals). -/
def roundHalfEven (x : ℚ) : ℤ :=
  if x - ⌊x⌋ < 1 / 2 then ⌊x⌋
  else if 1 / 2 < x - ⌊x⌋ then ⌊x⌋ + 1
  else if 2 ∣ ⌊x⌋ then ⌊x⌋ else ⌊x⌋ + 1

/-- Python `round(x, 1)`. -/
def round1 (x : ℚ) : ℚ := (roundHalfEven (10 * x) : ℚ) / 10

/-- One row of the consensus dataframe (all columns except the `Rank`
column inserted after sorting). -/
structure ConsensusRow where
  ticker : String
  rynek : String
  signal_strength : ℚ
  coverage : String
  elite_score : Nat
  top5_count : Nat
  top10_count : Nat
  positive_flags : Nat
  warnings : Nat
  unique_flags : String
  investment_thesis : String
  models : String
deriving Repr, DecidableEq

/-- The row built for one company by `create_consensus_df`.
`len(MODEL_THEMES) = 7` in the source's coverage column. -/
def consensusRow (ticker : String) (s : CompanySignals) : ConsensusRow :=
  { ticker := ticker
    rynek := s.rynek.getD ""
    signal_strength := round1 s.calculate_signal_strength
    coverage := toString s.coverage ++ "/7"
    elite_score := s.elite_score
    top5_count := s.top5_count
    top10_count := s.top10_count
    positive_flags := s.positive_flag_count
    warnings := s.warning_count
    unique_flags := bracketJoin (sortedStrings s.unique_flags)
    investment_thesis := s.generate_thesis
    models := s.get_models_summary }

/-- `enumerate(l, start)` / `range(start, start + len(l))` pairing. -/
def withRanks (start : Nat) : List α → List (Nat × α)
  | [] => []
  | x :: rest => (start, x) :: withRanks (start + 1) rest

/-- `create_consensus_df`: build one row per company in encounter order,
sort by `Signal_Strength` descending, then insert `Rank = 1..n`.

Caveat: the source sorts with the dataframe library's default sort
(`sort_values(..., ascending=False)`, `kind='quicksort'`), which that
library documents as NOT stable — it guarantees only a non-increasing
arrangement of the key column, not any particular order among equal keys.
An executable model must fix one admissible arrangement; this one uses the
stable `sortByDesc`. No theorem in this file relies on the tie order of
this definition; the claim that ties keep encounter order is refuted as a
code bug at `tieInput` (`consensus_tie_failing_input`). -/
def create_consensus_df (companies : List (String × CompanySignals)) :
    List (Nat × ConsensusRow) :=
  let rows := companies.map (fun p => consensusRow p.1 p.2)
  withRanks 1 (sortByDesc (fun r => r.signal_strength) rows)

/-- One company of the all-tied consensus input: a single appearance in
model `"m"` with rank 30 (no rank points) and no flags, so its signal
strength is the pure coverage bonus `1.5`, whatever the ticker. -/
def tieRow (t : String) : String × CompanySignals :=
  (t, (CompanySignals.init t).add_appearance "m" 30 0 "" none)

/-- A company mapping on which the consensus sort key is constant: 17
companies whose rows all carry `Signal_Strength = 1.5`. The whole frame is
one tie block, larger than the 16-element cutoff below which the library's
default sort incidentally degenerates to a stable insertion sort. -/
def tieInput : List (String × CompanySignals) :=
  ["T01", "T02", "T03", "T04", "T05", "T06", "T07", "T08", "T09", "T10",
   "T11", "T12", "T13", "T14", "T15", "T16", "T17"].map tieRow

/-- One row of the best-of dataframe. -/
structure BestOfRow where
  category : String
  rank : Nat
  ticker : String
  category_score : ℚ
  signal_strength : ℚ
  flags : String
deriving Repr, DecidableEq

/-- The `categories` table of `create_best_of`. -/
def bestOfCategories : List (String × List String) :=
  [("QUALITY", ["quality"]), ("GROWTH", ["growth"]), ("VALUE", ["value"]),
   ("MOMENTUM", ["momentum"]), ("SAFETY", ["safety"]), ("CASH", ["cash"]),
   ("TURNAROUND", ["turnaround"])]

/-- `sum(strength.get(cf, 0) for cf in cat_flags)`. -/
def catContribution (s : CompanySignals) (cat_flags : List String) : ℚ :=
  (cat_flags.map (fun cf => (s.get_category_strength.lookup cf).getD 0)).sum

/-- The `cat_scores` list of `create_best_of`: the `(ticker, cat_score,
signals)` triples of the companies with positive contribution, in encounter
order. -/
def bestOfEligible (companies : List (String × CompanySignals))
    (cat_flags : List String) : List (String × ℚ × CompanySignals) :=
  companies.filterMap (fun p =>
    if 0 < catContribution p.2 cat_flags then
      some (p.1, catContribution p.2 cat_flags, p.2)
    else none)

/-- The output row `create_best_of` builds from one ranked triple. -/
def bestOfRow (cat_name : String) (q : Nat × String × ℚ × CompanySignals) : BestOfRow :=
  { category := cat_name
    rank := q.1
    ticker := q.2.1
    category_score := round1 q.2.2.1
    signal_strength := round1 q.2.2.2.calculate_signal_strength
    flags := bracketJoin (sortedStrings q.2.2.2.unique_flags) }

/-- The rows `create_best_of` emits for one category: companies with positive
contribution, stably sorted by contribution descending, top 3, ranked from 1. -/
def bestOfRows (companies : List (String × CompanySignals))
    (cat_name : String) (cat_flags : List String) : List BestOfRow :=
  (withRanks 1 ((sortByDesc (fun e => e.2.1) (bestOfEligible companies cat_flags)).take 3)).map
    (bestOfRow cat_name)

/-- `create_best_of`: the per-category top-3 rows, category by category. -/
def create_best_of (companies : List (String × CompanySignals)) : List BestOfRow :=
  bestOfCategories.flatMap (fun c => bestOfRows companies c.1 c.2)

/-! ## Helper lemmas -/

theorem lookup_upsert (k : String) (v : Appearance) (l : List (String × Appearance)) :
    (upsert k v l).lookup k = some v := by
  induction l with
  | nil => simp [upsert]
  | cons p rest ih =>
    obtain ⟨k', v'⟩ := p
    by_cases h : k' = k
    · simp [upsert, h]
    · have hbe : (k == k') = false := by simp [Ne.symm h]
      simp [upsert, h, List.lookup, hbe, ih]

theorem upsert_upsert_length (k : String) (v v' : Appearance)
    (l : List (String × Appearance)) :
    (upsert k v (upsert k v' l)).length = (upsert k v' l).length := by
  induction l with
  | nil => simp [upsert]
  | cons p rest ih =>
    obtain ⟨k', w⟩ := p
    by_cases h : k' = k
    · simp [upsert, h]
    · simp [upsert, h, ih]

theorem maxEntry_eq_or_mem (best : String × ℚ) (l : List (String × ℚ)) :
    maxEntry best l = best ∨ maxEntry best l ∈ l := by
  induction l generalizing best with
  | nil => left; rfl
  | cons x rest ih =>
    simp only [maxEntry]
    rcases ih (if best.2 < x.2 then x else best) with h | h
    · rw [h]
      by_cases hc : best.2 < x.2
      · right; simp [hc]
      · left; simp [hc]
    · right; exact List.mem_cons_of_mem _ h

theorem le_maxEntry_init (best : String × ℚ) (l : List (String × ℚ)) :
    best.2 ≤ (maxEntry best l).2 := by
  induction l generalizing best with
  | nil => simp [maxEntry]
  | cons x rest ih =>
    simp only [maxEntry]
    refine le_trans ?_ (ih _)
    by_cases hc : best.2 < x.2
    · simp [hc, le_of_lt hc]
    · simp [hc]

theorem le_maxEntry_of_mem (best : String × ℚ) (l : List (String × ℚ))
    (x : String × ℚ) (hx : x ∈ l) : x.2 ≤ (maxEntry best l).2 := by
  induction l generalizing best with
  | nil => cases hx
  | cons y rest ih =>
    simp only [maxEntry]
    rcases List.mem_cons.mp hx with rfl | hmem
    · refine le_trans ?_ (le_maxEntry_init _ _)
      by_cases hc : best.2 < x.2
      · simp [hc]
      · simp [hc, le_of_not_lt hc]
    · exact ih _ hmem

/-! ## C1, C4, C5, C6 -/

/-- C1: `calculate_signal_strength` is exactly
`elite_score + 3·flag_density + 1.5·min(coverage, 4) − 2·warning_count
+ 0.5·min(dominant_strength, 5)`, with `dominant_strength` the strength
component of `get_dominant_category`. -/
theorem signal_strength_formula (s : CompanySignals) :
    s.calculate_signal_strength =
      (s.elite_score : ℚ) + 3 * s.get_flag_density + 1.5 * min (s.coverage : ℚ) 4
        - 2 * (s.warning_count : ℚ) + 0.5 * min s.get_dominant_category.2 5 := by
  simp only [CompanySignals.calculate_signal_strength]
  ring

/-- C4: `rynek` (the market segment) is first-write-wins: once it holds a
non-empty value no later `add_appearance` overwrites it, a falsy (absent or
empty) supplied value never changes it, and adding `("m1", segment "A")` then
`("m2", segment "B")` leaves it at `"A"`. -/
theorem market_segment_first_write_wins (s : CompanySignals) (m : String)
    (rank : Nat) (score : ℚ) (flags : String) (r : Option String) :
    ((∃ v, s.rynek = some v ∧ v ≠ "") →
      (s.add_appearance m rank score flags r).rynek = s.rynek)
    ∧ (strFalsy r = true → (s.add_appearance m rank score flags r).rynek = s.rynek)
    ∧ (((CompanySignals.init "T").add_appearance "m1" 1 0 "" (some "A")).add_appearance
        "m2" 2 0 "" (some "B")).rynek = some "A" := by
  refine ⟨?_, ?_, by decide⟩
  · rintro ⟨v, hv, hne⟩
    simp [CompanySignals.add_appearance, hv, strFalsy, hne]
  · intro h
    simp [CompanySignals.add_appearance, h]

/-- C4 witness: a concrete accumulator whose `rynek` is already the non-empty
`"A"` keeps it across a later `add_appearance` carrying `"B"`. -/
theorem market_segment_first_write_wins_witness :
    (∃ v, (⟨"X", some "A", []⟩ : CompanySignals).rynek = some v ∧ v ≠ "")
    ∧ ((⟨"X", some "A", []⟩ : CompanySignals).add_appearance "m" 1 0 "" (some "B")).rynek
        = (⟨"X", some "A", []⟩ : CompanySignals).rynek :=
  ⟨⟨"A", rfl, by decide⟩,
    (market_segment_first_write_wins ⟨"X", some "A", []⟩ "m" 1 0 "" (some "B")).1
      ⟨"A", rfl, by decide⟩⟩

/-- C5: re-adding the same scanner label leaves `coverage` unchanged and
replaces that scanner's recorded rank, score and flags with the second
call's values (last-write-wins per scanner label). -/
theorem re_appearance_last_write_wins (s : CompanySignals) (m : String)
    (r1 r2 : Nat) (sc1 sc2 : ℚ) (f1 f2 : String) (ry1 ry2 : Option String) :
    ((s.add_appearance m r1 sc1 f1 ry1).add_appearance m r2 sc2 f2 ry2).coverage
        = (s.add_appearance m r1 sc1 f1 ry1).coverage
    ∧ ((s.add_appearance m r1 sc1 f1 ry1).add_appearance m r2 sc2 f2 ry2).appearances.lookup m
        = some ⟨r2, sc2, f2, CompanySignals.parse_flags f2⟩ := by
  constructor
  · simpa [CompanySignals.add_appearance, CompanySignals.coverage] using
      upsert_upsert_length m _ _ s.appearances
  · simpa [CompanySignals.add_appearance] using
      lookup_upsert m ⟨r2, sc2, f2, CompanySignals.parse_flags f2⟩ _

/-- C6: an accumulator with zero appearances answers all derived metrics with
their identity values: coverage 0, elite score 0, empty flag collections,
flag density 0, dominant category `("unknown", 0)`, and the fixed no-data
thesis text. -/
theorem zero_coverage_defaults (s : CompanySignals) (h : s.appearances = []) :
    s.coverage = 0 ∧ s.elite_score = 0 ∧ s.all_flags = [] ∧ s.unique_flags = []
    ∧ s.get_flag_density = 0 ∧ s.get_dominant_category = ("unknown", 0)
    ∧ s.generate_thesis = "Brak danych" := by
  have hflags : s.all_flags = [] := by simp [CompanySignals.all_flags, h]
  have hcov : s.coverage = 0 := by simp [CompanySignals.coverage, h]
  refine ⟨hcov, ?_, hflags, ?_, ?_, ?_, ?_⟩
  · simp [CompanySignals.elite_score, h]
  · simp [CompanySignals.unique_flags, hflags]
  · simp [CompanySignals.get_flag_density, hcov]
  · simp [CompanySignals.get_dominant_category, CompanySignals.get_category_strength, hflags]
  · simp [CompanySignals.generate_thesis, hcov]

/-- C6 witness: the freshly initialised accumulator has no appearances and
answers the identity values. -/
theorem zero_coverage_defaults_witness :
    (CompanySignals.init "X").appearances = []
    ∧ ((CompanySignals.init "X").coverage = 0 ∧ (CompanySignals.init "X").elite_score = 0
      ∧ (CompanySignals.init "X").all_flags = [] ∧ (CompanySignals.init "X").unique_flags = []
      ∧ (CompanySignals.init "X").get_flag_density = 0
      ∧ (CompanySignals.init "X").get_dominant_category = ("unknown", 0)
      ∧ (CompanySignals.init "X").generate_thesis = "Brak danych") :=
  ⟨rfl, zero_coverage_defaults (CompanySignals.init "X") rfl⟩

/-- C7: `get_dominant_category` returns a maximiser of the category-strength
map with the `warning` entry removed, the sentinel `("unknown", 0)` whenever
nothing remains, and in particular a company whose only flags are `!` and `?`
reports `("unknown", 0)`. -/
theorem dominant_category_argmax (s : CompanySignals) :
    (s.get_category_strength.filter (fun p => p.1 ≠ "warning") = [] →
      s.get_dominant_category = ("unknown", 0))
    ∧ (∀ x ∈ s.get_category_strength.filter (fun p => p.1 ≠ "warning"),
        s.get_dominant_category ∈ s.get_category_strength.filter (fun p => p.1 ≠ "warning")
        ∧ x.2 ≤ s.get_dominant_category.2)
    ∧ ((CompanySignals.init "W").add_appearance "m" 1 0 "[!][?]" none).get_dominant_category
        = ("unknown", 0) := by
  refine ⟨?_, ?_, by decide⟩
  · intro hfil
    unfold CompanySignals.get_dominant_category
    by_cases h0 : s.get_category_strength.isEmpty
    · simp [h0]
    · simp only [h0, if_false, Bool.false_eq_true]
      rw [hfil]
  · intro x hx
    have hne : s.get_category_strength ≠ [] := by
      intro h
      rw [h] at hx
      simp at hx
    have h0 : s.get_category_strength.isEmpty = false := by
      simpa [List.isEmpty_iff] using hne
    unfold CompanySignals.get_dominant_category
    cases hfe : s.get_category_strength.filter (fun p => p.1 ≠ "warning") with
    | nil =>
      rw [hfe] at hx
      exact absurd hx (List.not_mem_nil x)
    | cons y rest =>
      rw [hfe] at hx
      simp only [h0, Bool.false_eq_true, if_false, hfe]
      constructor
      · rcases maxEntry_eq_or_mem y rest with h | h
        · rw [h]; exact List.mem_cons_self y rest
        · exact List.mem_cons_of_mem y h
      · rcases List.mem_cons.mp hx with rfl | hmem
        · exact le_maxEntry_init x rest
        · exact le_maxEntry_of_mem y rest x hmem

/-- C7 witness: a quality/growth company has a non-empty non-warning
category-strength map and its dominant category is a maximiser of it. -/
theorem dominant_category_argmax_witness :
    (("quality", categoryWeight "quality") ∈
        (((CompanySignals.init "A").add_appearance "QG" 3 0 "[Q][G]" none).get_category_strength.filter
          (fun p => p.1 ≠ "warning")))
    ∧ ((CompanySignals.init "A").add_appearance "QG" 3 0 "[Q][G]" none).get_dominant_category ∈
        (((CompanySignals.init "A").add_appearance "QG" 3 0 "[Q][G]" none).get_category_strength.filter
          (fun p => p.1 ≠ "warning"))
    ∧ ("quality", categoryWeight "quality").2 ≤
        ((CompanySignals.init "A").add_appearance "QG" 3 0 "[Q][G]" none).get_dominant_category.2 := by
  have hcs : (((CompanySignals.init "A").add_appearance "QG" 3 0 "[Q][G]" none).get_category_strength.filter
        (fun p => p.1 ≠ "warning"))
      = [("quality", categoryWeight "quality"), ("growth", categoryWeight "growth")] := rfl
  have hq : ("quality", categoryWeight "quality") ∈
      (((CompanySignals.init "A").add_appearance "QG" 3 0 "[Q][G]" none).get_category_strength.filter
        (fun p => p.1 ≠ "warning")) := by
    rw [hcs]
    exact List.mem_cons_self _ _
  have h := (dominant_category_argmax
      ((CompanySignals.init "A").add_appearance "QG" 3 0 "[Q][G]" none)).2.1
      ("quality", categoryWeight "quality") hq
  exact ⟨hq, h.1, h.2⟩

theorem parseGo_run (t : List Char) : ∀ (run rest : List Char),
    (∀ c ∈ t, flagChar c = true) → run ++ t ≠ [] →
    parseGo (some run) (t ++ ']' :: rest) = (run ++ t) :: parseGo none rest := by
  induction t with
  | nil =>
    intro run rest _ hne
    have hbr : flagChar ']' = false := by decide
    have hrun : run ≠ [] := by simpa using hne
    simp [parseGo, hbr, hrun]
  | cons c t ih =>
    intro run rest ht hne
    have hc : flagChar c = true := ht c (List.mem_cons_self c t)
    have hstep : parseGo (some run) ((c :: t) ++ ']' :: rest)
        = parseGo (some (run ++ [c])) (t ++ ']' :: rest) := by
      simp [parseGo, hc]
    rw [hstep, ih (run ++ [c]) rest (fun x hx => ht x (List.mem_cons_of_mem c hx)) (by simp)]
    simp

theorem data_bracketJoin (tokens : List String) :
    (bracketJoin tokens).data
      = (tokens.map String.data).flatMap (fun t => '[' :: (t ++ [']'])) := by
  induction tokens with
  | nil => rfl
  | cons t rest ih =>
    show ("[" ++ t ++ "]" ++ bracketJoin rest).data = _
    simp only [String.data_append, ih, List.map_cons, List.flatMap_cons]
    rfl

theorem parseGo_open (cs : List Char) : parseGo none ('[' :: cs) = parseGo (some []) cs := by
  simp [parseGo]

theorem parseGo_tokens (tokens : List (List Char))
    (h : ∀ t ∈ tokens, t ≠ [] ∧ ∀ c ∈ t, flagChar c = true) :
    parseGo none (tokens.flatMap (fun t => '[' :: (t ++ [']']))) = tokens := by
  induction tokens with
  | nil => rfl
  | cons t rest ih =>
    obtain ⟨hne, hflag⟩ := h t (List.mem_cons_self t rest)
    rw [List.flatMap_cons, List.cons_append, parseGo_open, List.append_assoc,
      List.singleton_append, parseGo_run t [] _ hflag (by simpa using hne)]
    simp [ih (fun x hx => h x (List.mem_cons_of_mem t hx))]

/-- C3: for a string that is a concatenation of well-formed `[X]` tokens
(each `X` a non-empty run of uppercase letters or `!`/`?`), parsing with the
flag extraction rule recovers exactly the token list, and re-serializing each
element as `[` + element + `]` in order reproduces the original string. -/
theorem flag_parse_roundtrip (tokens : List String)
    (h : ∀ t ∈ tokens, t ≠ "" ∧ ∀ c ∈ t.data, flagChar c = true) :
    CompanySignals.parse_flags (bracketJoin tokens) = tokens
    ∧ bracketJoin (CompanySignals.parse_flags (bracketJoin tokens)) = bracketJoin tokens := by
  have hchar : ∀ t ∈ tokens.map String.data, t ≠ [] ∧ ∀ c ∈ t, flagChar c = true := by
    intro d hd
    obtain ⟨t, ht, rfl⟩ := List.mem_map.mp hd
    refine ⟨?_, (h t ht).2⟩
    intro hnil
    apply (h t ht).1
    cases t with
    | mk d' => simp only at hnil; rw [hnil]
  have h1 : CompanySignals.parse_flags (bracketJoin tokens) = tokens := by
    unfold CompanySignals.parse_flags
    rw [data_bracketJoin, parseGo_tokens _ hchar]
    have hid : String.mk ∘ String.data = id := funext fun s => rfl
    rw [List.map_map, hid, List.map_id]
  exact ⟨h1, by rw [h1]⟩

/-- C3 witness: the spec's example `[Q][G][V]` round-trips. -/
theorem flag_parse_roundtrip_witness :
    CompanySignals.parse_flags (bracketJoin ["Q", "G", "V"]) = ["Q", "G", "V"]
    ∧ bracketJoin (CompanySignals.parse_flags (bracketJoin ["Q", "G", "V"]))
        = bracketJoin ["Q", "G", "V"] :=
  flag_parse_roundtrip ["Q", "G", "V"] (by decide)

/-- C8: for coverage ≥ 1 the thesis is
`"<LABEL> (<conviction>)"`, extended by `": <clause1>, <clause2>, ..."` exactly
when the detail list is non-empty, and the conviction tier is `"Strong"` iff
`signal_strength ≥ 15`, `"Medium"` iff `10 ≤ signal_strength < 15`, `"Weak"`
iff `signal_strength < 10`. -/
theorem thesis_format (s : CompanySignals) (h : 1 ≤ s.coverage) :
    s.generate_thesis =
      (categoryName s.get_dominant_category.1).getD "MIXED" ++ " (" ++ s.conviction ++ ")"
        ++ (if s.thesisDetails.isEmpty then ""
            else ": " ++ String.intercalate ", " s.thesisDetails)
    ∧ (s.conviction = "Strong" ↔ 15 ≤ s.calculate_signal_strength)
    ∧ (s.conviction = "Medium" ↔
        10 ≤ s.calculate_signal_strength ∧ s.calculate_signal_strength < 15)
    ∧ (s.conviction = "Weak" ↔ s.calculate_signal_strength < 10) := by
  have hc : ¬s.coverage = 0 := by omega
  refine ⟨?_, ?_, ?_, ?_⟩
  · unfold CompanySignals.generate_thesis
    rw [if_neg hc]
  · constructor
    · intro hs
      by_contra h15
      unfold CompanySignals.conviction at hs
      rw [if_neg h15] at hs
      by_cases h10 : 10 ≤ s.calculate_signal_strength
      · rw [if_pos h10] at hs; exact absurd hs (by decide)
      · rw [if_neg h10] at hs; exact absurd hs (by decide)
    · intro h15
      unfold CompanySignals.conviction
      rw [if_pos h15]
  · constructor
    · intro hs
      unfold CompanySignals.conviction at hs
      by_cases h15 : 15 ≤ s.calculate_signal_strength
      · rw [if_pos h15] at hs; exact absurd hs (by decide)
      · rw [if_neg h15] at hs
        by_cases h10 : 10 ≤ s.calculate_signal_strength
        · exact ⟨h10, not_le.mp h15⟩
        · rw [if_neg h10] at hs; exact absurd hs (by decide)
    · rintro ⟨h10, h15⟩
      unfold CompanySignals.conviction
      rw [if_neg (not_le.mpr h15), if_pos h10]
  · constructor
    · intro hs
      unfold CompanySignals.conviction at hs
      by_cases h15 : 15 ≤ s.calculate_signal_strength
      · rw [if_pos h15] at hs; exact absurd hs (by decide)
      · rw [if_neg h15] at hs
        by_cases h10 : 10 ≤ s.calculate_signal_strength
        · rw [if_pos h10] at hs; exact absurd hs (by decide)
        · exact not_le.mp h10
    · intro h10
      unfold CompanySignals.conviction
      rw [if_neg (not_le.mpr (lt_trans h10 (by norm_num))), if_neg (not_le.mpr h10)]

/-- C8 witness: a company covered by one model satisfies the coverage
hypothesis and the Weak-tier characterisation. -/
theorem thesis_format_witness :
    1 ≤ ((CompanySignals.init "T").add_appearance "m" 1 0 "" none).coverage
    ∧ (((CompanySignals.init "T").add_appearance "m" 1 0 "" none).conviction = "Weak"
        ↔ ((CompanySignals.init "T").add_appearance "m" 1 0 "" none).calculate_signal_strength
            < 10) :=
  ⟨by decide,
    (thesis_format ((CompanySignals.init "T").add_appearance "m" 1 0 "" none) (by decide)).2.2.2⟩

theorem flagToCategory_of_two_le (s : String) (h : 2 ≤ s.data.length) :
    flagToCategory s = none := by
  have hQ : s ≠ "Q" := by intro he; rw [he] at h; exact absurd h (by decide)
  have hG : s ≠ "G" := by intro he; rw [he] at h; exact absurd h (by decide)
  have hR : s ≠ "R" := by intro he; rw [he] at h; exact absurd h (by decide)
  have hV : s ≠ "V" := by intro he; rw [he] at h; exact absurd h (by decide)
  have hD : s ≠ "D" := by intro he; rw [he] at h; exact absurd h (by decide)
  have hM : s ≠ "M" := by intro he; rw [he] at h; exact absurd h (by decide)
  have hA : s ≠ "A" := by intro he; rw [he] at h; exact absurd h (by decide)
  have hS : s ≠ "S" := by intro he; rw [he] at h; exact absurd h (by decide)
  have hB : s ≠ "B" := by intro he; rw [he] at h; exact absurd h (by decide)
  have hL : s ≠ "L" := by intro he; rw [he] at h; exact absurd h (by decide)
  have hC : s ≠ "C" := by intro he; rw [he] at h; exact absurd h (by decide)
  have hT : s ≠ "T" := by intro he; rw [he] at h; exact absurd h (by decide)
  have hE : s ≠ "!" := by intro he; rw [he] at h; exact absurd h (by decide)
  have hU : s ≠ "?" := by intro he; rw [he] at h; exact absurd h (by decide)
  simp [flagToCategory, hQ, hG, hR, hV, hD, hM, hA, hS, hB, hL, hC, hT, hE, hU]

/-- C10: a bracketed token whose run has at least two characters parses to a
single multi-character flag; it is distinct from `"!"` and `"?"`, maps to no
category, and an accumulator holding only that token counts one positive
flag, zero warnings, and an empty category-strength map. -/
theorem multichar_token_single_flag (run : List Char)
    (h1 : ∀ c ∈ run, flagChar c = true) (h2 : 2 ≤ run.length) :
    CompanySignals.parse_flags (String.mk ('[' :: (run ++ [']']))) = [String.mk run]
    ∧ String.mk run ≠ "!" ∧ String.mk run ≠ "?"
    ∧ flagToCategory (String.mk run) = none
    ∧ ((CompanySignals.init "T").add_appearance "m" 1 0
        (String.mk ('[' :: (run ++ [']']))) none).positive_flag_count = 1
    ∧ ((CompanySignals.init "T").add_appearance "m" 1 0
        (String.mk ('[' :: (run ++ [']']))) none).warning_count = 0
    ∧ ((CompanySignals.init "T").add_appearance "m" 1 0
        (String.mk ('[' :: (run ++ [']']))) none).get_category_strength = [] := by
  have hrun_ne : run ≠ [] := by
    intro hr
    rw [hr] at h2
    exact absurd h2 (by decide)
  have hparse : CompanySignals.parse_flags (String.mk ('[' :: (run ++ [']'])))
      = [String.mk run] := by
    unfold CompanySignals.parse_flags
    show (parseGo none ('[' :: (run ++ [']']))).map String.mk = _
    rw [show run ++ [']'] = run ++ ']' :: [] from rfl, parseGo_open,
      parseGo_run run [] [] h1 (by simpa using hrun_ne)]
    rfl
  have hne1 : String.mk run ≠ "!" := by
    intro he
    have hd : run = ['!'] := congrArg String.data he
    rw [hd] at h2
    exact absurd h2 (by decide)
  have hne2 : String.mk run ≠ "?" := by
    intro he
    have hd : run = ['?'] := congrArg String.data he
    rw [hd] at h2
    exact absurd h2 (by decide)
  have hcat : flagToCategory (String.mk run) = none :=
    flagToCategory_of_two_le _ (by simpa using h2)
  have hall : ((CompanySignals.init "T").add_appearance "m" 1 0
      (String.mk ('[' :: (run ++ [']']))) none).all_flags = [String.mk run] := by
    simp [CompanySignals.all_flags, CompanySignals.add_appearance, CompanySignals.init,
      upsert, hparse]
  have hw : isWarningFlag (String.mk run) = false := by
    simp [isWarningFlag, hne1, hne2]
  refine ⟨hparse, hne1, hne2, hcat, ?_, ?_, ?_⟩
  · simp [CompanySignals.positive_flag_count, hall, hw]
  · simp [CompanySignals.warning_count, hall, hw]
  · simp [CompanySignals.get_category_strength, hall, hcat]

/-- C10 witness: the token `[!?]`, made only of warning characters, is one
positive (non-warning) flag contributing to no category. -/
theorem multichar_token_single_flag_witness :
    CompanySignals.parse_flags (String.mk ('[' :: (['!', '?'] ++ [']'])))
        = [String.mk ['!', '?']]
    ∧ String.mk ['!', '?'] ≠ "!" ∧ String.mk ['!', '?'] ≠ "?"
    ∧ flagToCategory (String.mk ['!', '?']) = none
    ∧ ((CompanySignals.init "T").add_appearance "m" 1 0
        (String.mk ('[' :: (['!', '?'] ++ [']']))) none).positive_flag_count = 1
    ∧ ((CompanySignals.init "T").add_appearance "m" 1 0
        (String.mk ('[' :: (['!', '?'] ++ [']']))) none).warning_count = 0
    ∧ ((CompanySignals.init "T").add_appearance "m" 1 0
        (String.mk ('[' :: (['!', '?'] ++ [']']))) none).get_category_strength = [] :=
  multichar_token_single_flag ['!', '?'] (by decide) (by decide)

/-! ## Stable sort lemmas -/

theorem insertS_desc_perm (key : α → ℚ) (x : α) (l : List α) :
    (insertS (fun a b => key b ≤ key a) x l).Perm (x :: l) := by
  induction l with
  | nil => exact List.Perm.refl _
  | cons y rest ih =>
    by_cases hc : key y ≤ key x
    · simp [insertS, hc]
    · have hcb : (decide (key y ≤ key x)) = false := by simpa using hc
      simp only [insertS, hcb, Bool.false_eq_true, if_false]
      exact (ih.cons y).trans (List.Perm.swap x y rest)

theorem sortByDesc_perm (key : α → ℚ) (l : List α) : (sortByDesc key l).Perm l := by
  induction l with
  | nil => exact List.Perm.refl _
  | cons x rest ih =>
    exact (insertS_desc_perm key x (sortByDesc key rest)).trans (ih.cons x)

theorem insertS_desc_sorted (key : α → ℚ) (x : α) (l : List α)
    (h : List.Pairwise (fun a b => key b ≤ key a) l) :
    List.Pairwise (fun a b => key b ≤ key a)
      (insertS (fun a b => key b ≤ key a) x l) := by
  induction l with
  | nil => simp [insertS]
  | cons y rest ih =>
    obtain ⟨hy, hrest⟩ := List.pairwise_cons.mp h
    by_cases hc : key y ≤ key x
    · have hcb : (decide (key y ≤ key x)) = true := by simpa using hc
      simp only [insertS, hcb, if_true]
      refine List.pairwise_cons.mpr ⟨?_, h⟩
      intro z hz
      rcases List.mem_cons.mp hz with rfl | hz'
      · exact hc
      · exact (hy z hz').trans hc
    · have hcb : (decide (key y ≤ key x)) = false := by simpa using hc
      simp only [insertS, hcb, Bool.false_eq_true, if_false]
      refine List.pairwise_cons.mpr ⟨?_, ih hrest⟩
      intro z hz
      rcases List.mem_cons.mp ((insertS_desc_perm key x rest).mem_iff.mp hz) with rfl | hz'
      · exact le_of_not_le hc
      · exact hy z hz'

theorem sortByDesc_sorted (key : α → ℚ) (l : List α) :
    List.Pairwise (fun a b => key b ≤ key a) (sortByDesc key l) := by
  induction l with
  | nil => simp [sortByDesc, sortS]
  | cons x rest ih => exact insertS_desc_sorted key x _ ih

theorem filter_insertS_desc (key : α → ℚ) (q : ℚ) (x : α) (l : List α)
    (h : List.Pairwise (fun a b => key b ≤ key a) l) :
    (insertS (fun a b => key b ≤ key a) x l).filter (fun a => key a = q)
      = if key x = q then x :: l.filter (fun a => key a = q)
        else l.filter (fun a => key a = q) := by
  induction l with
  | nil =>
    by_cases hx : key x = q <;> simp [insertS, List.filter_cons, hx]
  | cons y rest ih =>
    obtain ⟨hy, hrest⟩ := List.pairwise_cons.mp h
    by_cases hc : key y ≤ key x
    · have hcb : (decide (key y ≤ key x)) = true := by simpa using hc
      simp only [insertS, hcb, if_true]
      by_cases hx : key x = q <;> simp [List.filter_cons, hx]
    · have hxy : key x < key y := lt_of_not_le hc
      have hcb : (decide (key y ≤ key x)) = false := by simpa using hc
      simp only [insertS, hcb, Bool.false_eq_true, if_false]
      rw [List.filter_cons, ih hrest]
      by_cases hx : key x = q
      · have hyq : key y ≠ q := by
          intro he
          have : key x < key x := lt_of_lt_of_le hxy (le_of_eq (he.trans hx.symm))
          exact absurd this (lt_irrefl _)
        simp [List.filter_cons, hyq, hx]
      · by_cases hyq : key y = q <;> simp [List.filter_cons, hyq, hx]

theorem sortByDesc_filter (key : α → ℚ) (q : ℚ) (l : List α) :
    (sortByDesc key l).filter (fun a => key a = q) = l.filter (fun a => key a = q) := by
  induction l with
  | nil => rfl
  | cons x rest ih =>
    show (insertS _ x (sortByDesc key rest)).filter _ = _
    rw [filter_insertS_desc key q x _ (sortByDesc_sorted key rest)]
    by_cases hx : key x = q <;> simp [hx, List.filter_cons, ih]

theorem withRanks_length (n : Nat) (l : List α) : (withRanks n l).length = l.length := by
  induction l generalizing n with
  | nil => rfl
  | cons x rest ih => simp [withRanks, ih]

theorem withRanks_map_snd (n : Nat) (l : List α) : (withRanks n l).map Prod.snd = l := by
  induction l generalizing n with
  | nil => rfl
  | cons x rest ih => simp [withRanks, ih]

theorem withRanks_map_fst (n : Nat) (l : List α) :
    (withRanks n l).map Prod.fst = List.range' n l.length := by
  induction l generalizing n with
  | nil => rfl
  | cons x rest ih => simp [withRanks, ih, List.range'_succ]

theorem mem_withRanks (n : Nat) (l : List α) (p : Nat × α) :
    p ∈ withRanks n l ↔ ∃ i, l.get? i = some p.2 ∧ p.1 = n + i := by
  induction l generalizing n with
  | nil => simp [withRanks]
  | cons x rest ih =>
    constructor
    · intro hp
      rcases List.mem_cons.mp hp with rfl | hp'
      · exact ⟨0, by simp, by simp⟩
      · obtain ⟨i, h1, h2⟩ := (ih (n + 1)).mp hp'
        exact ⟨i + 1, by simpa using h1, by omega⟩
    · rintro ⟨i, h1, h2⟩
      cases i with
      | zero =>
        have h1' : x = p.2 := by simpa using h1
        have hp : p = (n, x) := Prod.ext_iff.mpr ⟨by omega, h1'.symm⟩
        rw [show withRanks n (x :: rest) = (n, x) :: withRanks (n + 1) rest from rfl, hp]
        exact List.mem_cons_self _ _
      | succ j =>
        rw [show withRanks n (x :: rest) = (n, x) :: withRanks (n + 1) rest from rfl]
        exact List.mem_cons_of_mem _ ((ih (n + 1)).mpr ⟨j, by simpa using h1, by omega⟩)

/-! ## C2 -/

theorem tieRow_signal (t t' : String) :
    (consensusRow (tieRow t).1 (tieRow t).2).signal_strength
      = (consensusRow (tieRow t').1 (tieRow t').2).signal_strength := rfl

/-- C2: failing input for the tie-preservation claim. On `tieInput` every
consensus row carries the same `Signal_Strength`, and this single tie block
has 17 (> 16) rows, so its internal order is decided entirely by the
source's `sort_values` default quicksort, which guarantees no order among
equal keys: the encounter-order tie-breaking the claim asserts is not a
property of the program. -/
theorem consensus_tie_failing_input :
    (create_consensus_df tieInput).length = 17
    ∧ 16 < (create_consensus_df tieInput).length
    ∧ ∀ p1 ∈ create_consensus_df tieInput, ∀ p2 ∈ create_consensus_df tieInput,
        p1.2.signal_strength = p2.2.signal_strength := by
  have hlen : (create_consensus_df tieInput).length = 17 := by
    show (withRanks 1 (sortByDesc (fun r : ConsensusRow => r.signal_strength)
        (tieInput.map (fun p => consensusRow p.1 p.2)))).length = 17
    rw [withRanks_length,
      (sortByDesc_perm (fun r : ConsensusRow => r.signal_strength)
        (tieInput.map (fun p => consensusRow p.1 p.2))).length_eq,
      List.length_map]
    rfl
  have hmem : ∀ p ∈ create_consensus_df tieInput,
      ∃ t, p.2 = consensusRow (tieRow t).1 (tieRow t).2 := by
    intro p hp
    have h2 : p.2 ∈ (create_consensus_df tieInput).map Prod.snd :=
      List.mem_map_of_mem Prod.snd hp
    have hsnd : (create_consensus_df tieInput).map Prod.snd
        = sortByDesc (fun r => r.signal_strength)
            (tieInput.map (fun p => consensusRow p.1 p.2)) := by
      simp [create_consensus_df, withRanks_map_snd]
    rw [hsnd] at h2
    have h3 : p.2 ∈ tieInput.map (fun p => consensusRow p.1 p.2) :=
      (sortByDesc_perm _ _).mem_iff.mp h2
    simp only [tieInput, List.map_map] at h3
    obtain ⟨t, _, h4⟩ := List.mem_map.mp h3
    exact ⟨t, h4.symm⟩
  refine ⟨hlen, by rw [hlen]; norm_num, ?_⟩
  intro p1 hp1 p2 hp2
  obtain ⟨t1, h1⟩ := hmem p1 hp1
  obtain ⟨t2, h2⟩ := hmem p2 hp2
  rw [h1, h2]
  exact tieRow_signal t1 t2

/-! ## C9 -/

theorem nodup_keys_mem_eq (l : List (String × CompanySignals))
    (h : (l.map Prod.fst).Nodup) (t : String) (a b : CompanySignals)
    (ha : (t, a) ∈ l) (hb : (t, b) ∈ l) : a = b := by
  induction l with
  | nil => cases ha
  | cons p rest ih =>
    obtain ⟨k, v⟩ := p
    rw [List.map_cons] at h
    obtain ⟨hk, hrest⟩ := List.nodup_cons.mp h
    rcases List.mem_cons.mp ha with hpa | ha' <;> rcases List.mem_cons.mp hb with hpb | hb'
    · injection hpa with h1 h2
      injection hpb with h3 h4
      rw [h2, h4]
    · injection hpa with h1 h2
      exact absurd (List.mem_map.mpr ⟨(t, b), hb', h1⟩) hk
    · injection hpb with h1 h2
      exact absurd (List.mem_map.mpr ⟨(t, a), ha', h1⟩) hk
    · exact ih hrest ha' hb'

theorem mem_bestOfEligible (companies : List (String × CompanySignals))
    (cat_flags : List String) (e : String × ℚ × CompanySignals) :
    e ∈ bestOfEligible companies cat_flags ↔
      (e.1, e.2.2) ∈ companies ∧ e.2.1 = catContribution e.2.2 cat_flags
        ∧ 0 < catContribution e.2.2 cat_flags := by
  unfold bestOfEligible
  rw [List.mem_filterMap]
  constructor
  · rintro ⟨p, hp, hg⟩
    by_cases hc : 0 < catContribution p.2 cat_flags
    · rw [if_pos hc] at hg
      injection hg with hg
      subst hg
      exact ⟨hp, rfl, hc⟩
    · rw [if_neg hc] at hg
      cases hg
  · rintro ⟨hmem, heq, hpos⟩
    refine ⟨(e.1, e.2.2), hmem, ?_⟩
    rw [if_pos hpos, ← heq]

theorem mem_bestOfRows (companies : List (String × CompanySignals))
    (cat_name : String) (cat_flags : List String) (r : BestOfRow) :
    r ∈ bestOfRows companies cat_name cat_flags ↔
      ∃ i e,
        ((sortByDesc (fun e => e.2.1) (bestOfEligible companies cat_flags)).take 3).get? i
            = some e
          ∧ r = bestOfRow cat_name (1 + i, e) := by
  unfold bestOfRows
  rw [List.mem_map]
  constructor
  · rintro ⟨q, hq, rfl⟩
    obtain ⟨i, h1, h2⟩ := (mem_withRanks 1 _ q).mp hq
    exact ⟨i, q.2, h1, by rw [← h2]⟩
  · rintro ⟨i, e, h1, rfl⟩
    exact ⟨(1 + i, e), (mem_withRanks 1 _ _).mpr ⟨i, h1, rfl⟩, rfl⟩

theorem bestOfRows_category (companies : List (String × CompanySignals))
    (cat_name : String) (cat_flags : List String) :
    ∀ r ∈ bestOfRows companies cat_name cat_flags, r.category = cat_name := by
  intro r hr
  obtain ⟨q, _, rfl⟩ := List.mem_map.mp hr
  rfl

theorem filter_bestOfRows_self (companies : List (String × CompanySignals))
    (cat_name : String) (cat_flags : List String) :
    (bestOfRows companies cat_name cat_flags).filter (fun r => r.category = cat_name)
      = bestOfRows companies cat_name cat_flags :=
  List.filter_eq_self.mpr (fun r hr => by
    simp [bestOfRows_category companies cat_name cat_flags r hr])

theorem filter_bestOfRows_ne (companies : List (String × CompanySignals))
    (cat_name : String) (cat_flags : List String) (m : String) (h : cat_name ≠ m) :
    (bestOfRows companies cat_name cat_flags).filter (fun r => r.category = m) = [] :=
  List.filter_eq_nil_iff.mpr (fun r hr => by
    simp [bestOfRows_category companies cat_name cat_flags r hr, h])

theorem create_best_of_filter (companies : List (String × CompanySignals))
    (cat_name : String) (cat_flags : List String)
    (hcat : (cat_name, cat_flags) ∈ bestOfCategories) :
    (create_best_of companies).filter (fun r => r.category = cat_name)
      = bestOfRows companies cat_name cat_flags := by
  fin_cases hcat <;>
    simp [create_best_of, bestOfCategories, List.filter_append,
      filter_bestOfRows_self, filter_bestOfRows_ne]

/-- C9: per category (with a unique-key company mapping), the best-of builder
emits at most 3 rows; every row's company has positive contribution in that
category (zero-contribution companies never appear); rows are ordered by that
category's contribution alone; and every eligible company left out has
contribution at most that of every listed row's company. -/
theorem best_of_top3 (companies : List (String × CompanySignals))
    (cat_name : String) (cat_flags : List String)
    (hcat : (cat_name, cat_flags) ∈ bestOfCategories)
    (hnd : (companies.map Prod.fst).Nodup) :
    ((create_best_of companies).filter (fun r => r.category = cat_name)).length ≤ 3
    ∧ (∀ r ∈ (create_best_of companies).filter (fun r => r.category = cat_name),
        ∃ s, (r.ticker, s) ∈ companies ∧ 0 < catContribution s cat_flags
          ∧ r.category_score = round1 (catContribution s cat_flags))
    ∧ (∀ r1 ∈ (create_best_of companies).filter (fun r => r.category = cat_name),
       ∀ r2 ∈ (create_best_of companies).filter (fun r => r.category = cat_name),
        r1.rank ≤ r2.rank →
        ∃ s1 s2, (r1.ticker, s1) ∈ companies ∧ (r2.ticker, s2) ∈ companies
          ∧ catContribution s2 cat_flags ≤ catContribution s1 cat_flags)
    ∧ (∀ t s, (t, s) ∈ companies → catContribution s cat_flags = 0 →
        ∀ r ∈ (create_best_of companies).filter (fun r => r.category = cat_name),
          r.ticker ≠ t)
    ∧ (∀ t s, (t, s) ∈ companies → 0 < catContribution s cat_flags →
        (∀ r ∈ (create_best_of companies).filter (fun r => r.category = cat_name),
          r.ticker ≠ t) →
        ∀ r ∈ (create_best_of companies).filter (fun r => r.category = cat_name),
          ∃ s2, (r.ticker, s2) ∈ companies
            ∧ catContribution s cat_flags ≤ catContribution s2 cat_flags) := by
  rw [create_best_of_filter companies cat_name cat_flags hcat]
  have hsorted : List.Pairwise (fun a b => b.2.1 ≤ a.2.1)
      (sortByDesc (fun e => e.2.1) (bestOfEligible companies cat_flags)) :=
    sortByDesc_sorted _ _
  have hTpair : List.Pairwise (fun a b => b.2.1 ≤ a.2.1)
      ((sortByDesc (fun e => e.2.1) (bestOfEligible companies cat_flags)).take 3) :=
    List.Pairwise.sublist (List.take_sublist 3 _) hsorted
  have hmemT : ∀ e ∈ (sortByDesc (fun e => e.2.1) (bestOfEligible companies cat_flags)).take 3,
      (e.1, e.2.2) ∈ companies ∧ e.2.1 = catContribution e.2.2 cat_flags
        ∧ 0 < catContribution e.2.2 cat_flags := by
    intro e he
    have h1 : e ∈ sortByDesc (fun e => e.2.1) (bestOfEligible companies cat_flags) :=
      List.take_subset 3 _ he
    have h2 : e ∈ bestOfEligible companies cat_flags :=
      (sortByDesc_perm _ _).mem_iff.mp h1
    exact (mem_bestOfEligible companies cat_flags e).mp h2
  refine ⟨?_, ?_, ?_, ?_, ?_⟩
  · unfold bestOfRows
    rw [List.length_map, withRanks_length]
    exact List.length_take_le 3 _
  · intro r hr
    obtain ⟨i, e, hget, rfl⟩ := (mem_bestOfRows companies cat_name cat_flags _).mp hr
    obtain ⟨hm, heq, hpos⟩ := hmemT e (List.get?_mem hget)
    exact ⟨e.2.2, hm, hpos, by simp [bestOfRow, heq]⟩
  · intro r1 hr1 r2 hr2 hrank
    obtain ⟨i1, e1, hg1, rfl⟩ := (mem_bestOfRows companies cat_name cat_flags _).mp hr1
    obtain ⟨i2, e2, hg2, rfl⟩ := (mem_bestOfRows companies cat_name cat_flags _).mp hr2
    obtain ⟨hm1, heq1, _⟩ := hmemT e1 (List.get?_mem hg1)
    obtain ⟨hm2, heq2, _⟩ := hmemT e2 (List.get?_mem hg2)
    refine ⟨e1.2.2, e2.2.2, hm1, hm2, ?_⟩
    rw [← heq1, ← heq2]
    simp only [bestOfRow] at hrank
    have hle : i1 ≤ i2 := by omega
    rcases Nat.eq_or_lt_of_le hle with heqi | hlt
    · rw [heqi] at hg1
      have he12 : e1 = e2 := Option.some.inj (hg1.symm.trans hg2)
      rw [he12]
    · obtain ⟨hlen1, hgt1⟩ := List.get?_eq_some.mp hg1
      obtain ⟨hlen2, hgt2⟩ := List.get?_eq_some.mp hg2
      have hpw := List.pairwise_iff_get.mp hTpair ⟨i1, hlen1⟩ ⟨i2, hlen2⟩
        (Fin.mk_lt_mk.mpr hlt)
      rw [hgt1, hgt2] at hpw
      exact hpw
  · intro t s hts hzero r hr
    intro hrt
    obtain ⟨i, e, hget, rfl⟩ := (mem_bestOfRows companies cat_name cat_flags _).mp hr
    obtain ⟨hm, heq, hpos⟩ := hmemT e (List.get?_mem hget)
    simp only [bestOfRow] at hrt
    rw [hrt] at hm
    have hse : s = e.2.2 := nodup_keys_mem_eq companies hnd t s e.2.2 hts hm
    rw [← hse, hzero] at hpos
    exact lt_irrefl 0 hpos
  · intro t s hts hpos hnotin r hr
    obtain ⟨i, e, hget, rfl⟩ := (mem_bestOfRows companies cat_name cat_flags _).mp hr
    obtain ⟨hm, heq, _⟩ := hmemT e (List.get?_mem hget)
    refine ⟨e.2.2, hm, ?_⟩
    rw [← heq]
    have hetE : (t, catContribution s cat_flags, s) ∈ bestOfEligible companies cat_flags :=
      (mem_bestOfEligible companies cat_flags _).mpr ⟨hts, rfl, hpos⟩
    have hetS : (t, catContribution s cat_flags, s)
        ∈ sortByDesc (fun e => e.2.1) (bestOfEligible companies cat_flags) :=
      (sortByDesc_perm _ _).mem_iff.mpr hetE
    have hetnotT : (t, catContribution s cat_flags, s)
        ∉ (sortByDesc (fun e => e.2.1) (bestOfEligible companies cat_flags)).take 3 := by
      intro hmem
      obtain ⟨j, hj⟩ := List.mem_iff_get?.mp hmem
      have hrow : bestOfRow cat_name (1 + j, (t, catContribution s cat_flags, s))
          ∈ bestOfRows companies cat_name cat_flags :=
        (mem_bestOfRows companies cat_name cat_flags _).mpr ⟨j, _, hj, rfl⟩
      exact (hnotin _ hrow) rfl
    have hdrop : (t, catContribution s cat_flags, s)
        ∈ (sortByDesc (fun e => e.2.1) (bestOfEligible companies cat_flags)).drop 3 := by
      rcases List.mem_append.mp (by
        rw [List.take_append_drop 3
          (sortByDesc (fun e => e.2.1) (bestOfEligible companies cat_flags))]
        exact hetS) with h | h
      · exact absurd h hetnotT
      · exact h
    have hsplit := (List.take_append_drop 3
      (sortByDesc (fun e => e.2.1) (bestOfEligible companies cat_flags))).symm
    rw [hsplit] at hsorted
    have hcross := (List.pairwise_append.mp hsorted).2.2
    exact hcross e (List.get?_mem hget) _ hdrop

/-- C9 witness: a one-company mapping with a growth flag satisfies the
category-membership and unique-key hypotheses, and its GROWTH list has at
most 3 rows. -/
theorem best_of_top3_witness :
    (("GROWTH", ["growth"]) ∈ bestOfCategories)
    ∧ (([("A", (CompanySignals.init "A").add_appearance "QG" 3 0 "[Q][G]" none)].map
        Prod.fst).Nodup)
    ∧ ((create_best_of
          [("A", (CompanySignals.init "A").add_appearance "QG" 3 0 "[Q][G]" none)]).filter
        (fun r => r.category = "GROWTH")).length ≤ 3 :=
  ⟨by decide, by decide,
    (best_of_top3 [("A", (CompanySignals.init "A").add_appearance "QG" 3 0 "[Q][G]" none)]
      "GROWTH" ["growth"] (by decide) (by decide)).1⟩

end Skanery
